import Mathlib

/-!
# Clavicula: shallow embedding of the observable-state core and decorators

Verification development for the `clavicula` reactive-store library.

The JavaScript source is embedded as follows:

* JS plain objects holding primitive values (the store records) become
  association lists `Rec = List (String × Int)`; the spread-merge
  `{...a, ...b}` becomes `shallowMerge`, which inserts each entry of `b`
  into `a` in order, replacing in place when the key is present and
  appending otherwise (this reproduces both the values and the key order
  of the JS spread).
* Listener functions are identified by a `Nat` reference; an invocation
  of a listener is recorded as an event `(listenerRef, deliveredValue)`.
  Stateful operations return the list of invocations they perform, in
  order, alongside the updated state.
* A thrown exception is modelled by a `Bool` flag (or an `Option`
  result): control leaves the operation at the throwing step, so the
  components assigned after that step keep their previous values, which
  the embedding makes explicit.
* `queueMicrotask` scheduling is modelled by a counter of pending flush
  tasks; running the microtask queue at the end of a synchronous turn
  executes the scheduled flush bodies in order.
-/

namespace Clavicula

/-- A store record: a JS plain object with primitive field values,
as an association list preserving key order. -/
abbrev Rec := List (String × Int)

/-- The keys of a record, in order. -/
def recKeys (r : Rec) : List String := r.map Prod.fst

/-- Reading a field: the value at the first occurrence of `k`. -/
def recLookup (r : Rec) (k : String) : Option Int :=
  match r with
  | [] => none
  | e :: r' => if e.1 = k then some e.2 else recLookup r' k

/-- Writing one field the way the JS spread does: replace the value in
place if the key is present, append the entry otherwise. -/
def setKey (r : Rec) (k : String) (v : Int) : Rec :=
  match r with
  | [] => [(k, v)]
  | e :: r' => if e.1 = k then (k, v) :: r' else e :: setKey r' k v

/-- Shallow merge `{...base, ...upd}`: fold the entries of `upd` into
`base` left to right. -/
def shallowMerge (base upd : Rec) : Rec :=
  upd.foldl (fun acc e => setKey acc e.1 e.2) base

@[simp] theorem shallowMerge_nil (base : Rec) : shallowMerge base [] = base := rfl

theorem shallowMerge_cons (base : Rec) (e : String × Int) (upd : Rec) :
    shallowMerge base (e :: upd) = shallowMerge (setKey base e.1 e.2) upd := rfl

theorem shallowMerge_append (base u1 u2 : Rec) :
    shallowMerge base (u1 ++ u2) = shallowMerge (shallowMerge base u1) u2 := by
  simp [shallowMerge, List.foldl_append]

@[simp] theorem recKeys_nil : recKeys ([] : Rec) = [] := rfl

@[simp] theorem recKeys_cons (e : String × Int) (r : Rec) :
    recKeys (e :: r) = e.1 :: recKeys r := rfl

@[simp] theorem setKey_nil (k : String) (v : Int) :
    setKey [] k v = [(k, v)] := rfl

theorem setKey_cons_eq {e : String × Int} {k : String} (r : Rec) (v : Int)
    (h : e.1 = k) : setKey (e :: r) k v = (k, v) :: r := by
  simp [setKey, h]

theorem setKey_cons_ne {e : String × Int} {k : String} (r : Rec) (v : Int)
    (h : ¬ e.1 = k) : setKey (e :: r) k v = e :: setKey r k v := by
  simp [setKey, h]

/-- Setting the same key twice keeps only the second value. -/
theorem setKey_same (r : Rec) (k : String) (v v2 : Int) :
    setKey (setKey r k v2) k v = setKey r k v := by
  induction r with
  | nil => simp [setKey]
  | cons e r ih =>
    by_cases h : e.1 = k
    · rw [setKey_cons_eq r v2 h, setKey_cons_eq r v rfl, setKey_cons_eq r v h]
    · rw [setKey_cons_ne r v2 h, setKey_cons_ne (setKey r k v2) v h,
        setKey_cons_ne r v h, ih]

theorem recKeys_setKey_of_mem {r : Rec} {k : String} (v : Int)
    (h : k ∈ recKeys r) : recKeys (setKey r k v) = recKeys r := by
  induction r with
  | nil => simp at h
  | cons e r ih =>
    by_cases he : e.1 = k
    · rw [setKey_cons_eq r v he, recKeys_cons, recKeys_cons, he]
    · have hm : k ∈ recKeys r := by
        rcases List.mem_cons.1 (by simpa using h) with h1 | h1
        · exact absurd h1.symm he
        · exact h1
      rw [setKey_cons_ne r v he, recKeys_cons, recKeys_cons, ih hm]

theorem recKeys_setKey_of_not_mem {r : Rec} {k : String} (v : Int)
    (h : k ∉ recKeys r) : recKeys (setKey r k v) = recKeys r ++ [k] := by
  induction r with
  | nil => simp
  | cons e r ih =>
    have he : ¬ e.1 = k := fun hk => h (by simp [hk])
    have hm : k ∉ recKeys r := fun hk => h (by simp [hk])
    rw [setKey_cons_ne r v he, recKeys_cons, recKeys_cons, ih hm]
    rfl

theorem mem_recKeys_setKey_self (r : Rec) (k : String) (v : Int) :
    k ∈ recKeys (setKey r k v) := by
  by_cases h : k ∈ recKeys r
  · rw [recKeys_setKey_of_mem v h]; exact h
  · rw [recKeys_setKey_of_not_mem v h]; simp

theorem mem_recKeys_setKey_of_mem {r : Rec} {k : String} (k2 : String) (v : Int)
    (h : k ∈ recKeys r) : k ∈ recKeys (setKey r k2 v) := by
  by_cases h2 : k2 ∈ recKeys r
  · rw [recKeys_setKey_of_mem v h2]; exact h
  · rw [recKeys_setKey_of_not_mem v h2]; exact List.mem_append_left _ h

theorem nodup_recKeys_setKey {r : Rec} (k : String) (v : Int)
    (h : (recKeys r).Nodup) : (recKeys (setKey r k v)).Nodup := by
  by_cases hm : k ∈ recKeys r
  · rw [recKeys_setKey_of_mem v hm]; exact h
  · rw [recKeys_setKey_of_not_mem v hm]
    exact List.Nodup.append h (List.nodup_singleton k) (by simpa using hm)

theorem nodup_recKeys_shallowMerge {b : Rec} (c : Rec)
    (h : (recKeys b).Nodup) : (recKeys (shallowMerge b c)).Nodup := by
  induction c generalizing b with
  | nil => simpa using h
  | cons e c ih =>
    rw [shallowMerge_cons]
    exact ih (nodup_recKeys_setKey e.1 e.2 h)

/-- Setting a key that the record already has commutes with setting a
different key. -/
theorem setKey_comm_of_mem {a : Rec} {k k2 : String} (v v2 : Int)
    (hne : k2 ≠ k) (hmem : k ∈ recKeys a) :
    setKey (setKey a k2 v2) k v = setKey (setKey a k v) k2 v2 := by
  induction a with
  | nil => simp at hmem
  | cons e a ih =>
    by_cases h1 : e.1 = k
    · have h2 : ¬ (e.1 = k2) := fun h => hne (h ▸ h1)
      rw [setKey_cons_ne a v2 h2, setKey_cons_eq (setKey a k2 v2) v h1,
        setKey_cons_eq a v h1,
        setKey_cons_ne a v2 (show ¬ ((k, v) : String × Int).1 = k2 from
          fun h => hne h.symm)]
    · have hk : k ∈ recKeys a := by
        rcases List.mem_cons.1 (by simpa using hmem) with h | h
        · exact absurd h.symm h1
        · exact h
      by_cases h2 : e.1 = k2
      · rw [setKey_cons_eq a v2 h2,
          setKey_cons_ne a v (show ¬ ((k2, v2) : String × Int).1 = k from hne),
          setKey_cons_ne a v h1, setKey_cons_eq (setKey a k v) v2 h2]
      · rw [setKey_cons_ne a v2 h2, setKey_cons_ne (setKey a k2 v2) v h1,
          setKey_cons_ne a v h1, setKey_cons_ne (setKey a k v) v2 h2, ih hk]

/-- Pushing a `setKey` of an existing key through a merge whose update
does not touch that key. -/
theorem setKey_shallowMerge_of_not_mem {a b : Rec} {k : String} (v : Int)
    (hmem : k ∈ recKeys a) (hnb : k ∉ recKeys b) :
    setKey (shallowMerge a b) k v = shallowMerge (setKey a k v) b := by
  induction b generalizing a with
  | nil => rfl
  | cons e b ih =>
    have hne : e.1 ≠ k := fun h => hnb (by simp [h])
    have hnb2 : k ∉ recKeys b := fun h => hnb (by simp [h])
    rw [shallowMerge_cons, ih (mem_recKeys_setKey_of_mem e.1 e.2 hmem) hnb2,
      setKey_comm_of_mem v e.2 hne hmem, shallowMerge_cons]

/-- `setKey` commutes past a merge with a duplicate-free update record. -/
theorem setKey_shallowMerge {a : Rec} {b : Rec} {k : String} (v : Int)
    (hb : (recKeys b).Nodup) :
    setKey (shallowMerge a b) k v = shallowMerge a (setKey b k v) := by
  induction b generalizing a with
  | nil => rfl
  | cons e b ih =>
    obtain ⟨hnb, hb2⟩ : e.1 ∉ recKeys b ∧ (recKeys b).Nodup := by
      simpa using hb
    by_cases h : e.1 = k
    · subst h
      rw [shallowMerge_cons,
        setKey_shallowMerge_of_not_mem v (mem_recKeys_setKey_self a e.1 e.2) hnb,
        setKey_same]
      simp [setKey, shallowMerge_cons]
    · have : setKey (e :: b) k v = e :: setKey b k v := by simp [setKey, h]
      rw [shallowMerge_cons, ih hb2, this, shallowMerge_cons]

/-- Associativity of the shallow merge for a duplicate-free middle
record (JS objects always have duplicate-free keys). -/
theorem shallowMerge_assoc (a : Rec) {b : Rec} (c : Rec)
    (hb : (recKeys b).Nodup) :
    shallowMerge (shallowMerge a b) c = shallowMerge a (shallowMerge b c) := by
  induction c generalizing b with
  | nil => rfl
  | cons e c ih =>
    rw [shallowMerge_cons, setKey_shallowMerge e.2 hb,
      ih (nodup_recKeys_setKey e.1 e.2 hb), shallowMerge_cons]

theorem shallowMerge_cons_of_not_mem {u : Rec} {k : String} (a : Rec) (v : Int)
    (h : k ∉ recKeys u) :
    shallowMerge ((k, v) :: a) u = (k, v) :: shallowMerge a u := by
  induction u generalizing a with
  | nil => rfl
  | cons e u ih =>
    have hne : ¬ (e.1 = k) := fun hk => h (by
      rw [recKeys_cons, hk]; exact List.mem_cons_self _ _)
    have h2 : k ∉ recKeys u := fun hk => h (List.mem_cons_of_mem _ hk)
    rw [shallowMerge_cons,
      setKey_cons_ne a e.2 (show ¬ ((k, v) : String × Int).1 = e.1 from
        fun hk => hne hk.symm),
      ih (setKey a e.1 e.2) h2, shallowMerge_cons]

/-- Merging a duplicate-free record into the empty record returns it
unchanged. -/
theorem shallowMerge_nil_left {u : Rec} (hu : (recKeys u).Nodup) :
    shallowMerge [] u = u := by
  induction u with
  | nil => rfl
  | cons e u ih =>
    obtain ⟨hnu, hu2⟩ : e.1 ∉ recKeys u ∧ (recKeys u).Nodup := by
      simpa using hu
    rw [shallowMerge_cons]
    show shallowMerge [(e.1, e.2)] u = e :: u
    rw [shallowMerge_cons_of_not_mem [] e.2 hnu, ih hu2]

@[simp] theorem recLookup_nil (k : String) : recLookup [] k = none := rfl

theorem recLookup_cons (e : String × Int) (r : Rec) (k : String) :
    recLookup (e :: r) k = if e.1 = k then some e.2 else recLookup r k := rfl

theorem recLookup_setKey_self (r : Rec) (k : String) (v : Int) :
    recLookup (setKey r k v) k = some v := by
  induction r with
  | nil => simp [recLookup]
  | cons e r ih =>
    by_cases h : e.1 = k
    · rw [setKey_cons_eq r v h, recLookup_cons, if_pos rfl]
    · rw [setKey_cons_ne r v h, recLookup_cons, if_neg h, ih]

theorem recLookup_setKey_ne {k k2 : String} (r : Rec) (v : Int) (h : k ≠ k2) :
    recLookup (setKey r k2 v) k = recLookup r k := by
  induction r with
  | nil => simp [recLookup, Ne.symm h]
  | cons e r ih =>
    by_cases he : e.1 = k2
    · rw [setKey_cons_eq r v he, recLookup_cons, recLookup_cons,
        if_neg (show ¬ ((k2, v) : String × Int).1 = k from Ne.symm h), he,
        if_neg (show ¬ k2 = k from Ne.symm h)]
    · rw [setKey_cons_ne r v he, recLookup_cons, recLookup_cons, ih]

/-- A merge leaves the keys it does not mention unchanged. -/
theorem recLookup_shallowMerge_of_not_mem {u : Rec} {k : String} (a : Rec)
    (h : k ∉ recKeys u) :
    recLookup (shallowMerge a u) k = recLookup a k := by
  induction u generalizing a with
  | nil => rfl
  | cons e u ih =>
    have hne : k ≠ e.1 := fun hk => h (by
      rw [recKeys_cons, hk]; exact List.mem_cons_self _ _)
    have h2 : k ∉ recKeys u := fun hk => h (List.mem_cons_of_mem _ hk)
    rw [shallowMerge_cons, ih _ h2, recLookup_setKey_ne _ e.2 hne]

/-- A merge gives the keys it mentions their merged-in values. -/
theorem recLookup_shallowMerge_of_mem {u : Rec} {k : String} (a : Rec)
    (hu : (recKeys u).Nodup) (h : k ∈ recKeys u) :
    recLookup (shallowMerge a u) k = recLookup u k := by
  induction u generalizing a with
  | nil => simp at h
  | cons e u ih =>
    obtain ⟨hnu, hu2⟩ : e.1 ∉ recKeys u ∧ (recKeys u).Nodup := by
      simpa using hu
    by_cases hk : k = e.1
    · subst hk
      rw [shallowMerge_cons, recLookup_shallowMerge_of_not_mem _ hnu,
        recLookup_setKey_self, recLookup_cons, if_pos rfl]
    · have hm : k ∈ recKeys u := by
        rcases List.mem_cons.1 (by simpa using h) with h1 | h1
        · exact absurd h1 hk
        · exact h1
      rw [shallowMerge_cons, ih _ hu2 hm, recLookup_cons,
        if_neg (fun hh : e.1 = k => hk hh.symm)]

/-! ## The mutable cell (`createStore`) -/

/-- A write argument: either a literal record or an updater function
(`typeof partial === 'function'`).  An updater that throws is modelled
as returning `none`. -/
inductive Upd where
  | obj (p : Rec)
  | fn (f : Rec → Option Rec)

/-- Resolve the dynamic update argument against the current record:
`typeof partial === 'function' ? partial(state) : partial`. -/
def resolveUpd (u : Upd) (s : Rec) : Option Rec :=
  match u with
  | .obj p => some p
  | .fn f => f s

/-- An invocation of the listener with reference `fst`, delivered the
record `snd`. -/
abbrev Event := Nat × Rec

/-- A mutable cell (`createStore`): the current record and the
`EventTarget` registrations for the change event, in registration
order.  Each `subscribe` call wraps the listener in a fresh handler
closure `(e) => fn(e.detail)`, so a registration is a pair of a fresh
handler identity and the wrapped listener reference; `nextId` supplies
fresh handler identities. -/
structure Cell where
  state : Rec
  handlers : List (Nat × Nat)
  nextId : Nat
deriving Repr, DecidableEq

/-- `createStore(initial)`: state is the initial record, no listeners. -/
def createStore (initial : Rec) : Cell := ⟨initial, [], 0⟩

/-- `get()`: returns the current record. -/
def Cell.get (c : Cell) : Rec := c.state

/-- `set(partial)`: resolve the update (a throwing updater aborts
before the assignment, leaving the state as it was and dispatching
nothing), assign the shallow merge, then dispatch the change event
synchronously to every registered handler with the new state, in
registration order.  Returns the new cell, the listener invocations
performed, and whether the updater threw. -/
def Cell.set (c : Cell) (u : Upd) : Cell × List Event × Bool :=
  match resolveUpd u c.state with
  | none => (c, [], true)
  | some p =>
    let s := shallowMerge c.state p
    ({ c with state := s }, c.handlers.map (fun h => (h.2, s)), false)

/-- `subscribe(fn)` from the current core (`src/unnamed/part_002`):
register a fresh handler wrapping `fn`, invoke `fn(state)` once
synchronously before returning (the catch-up call), and hand back the
handler identity that the returned unsubscribe closure removes. -/
def Cell.subscribe (c : Cell) (f : Nat) : Cell × List Event × Nat :=
  ({ c with handlers := c.handlers ++ [(c.nextId, f)], nextId := c.nextId + 1 },
   [(f, c.state)], c.nextId)

/-- `subscribe(fn)` as shipped in `packages/clavicula/index.js`: the
handler is registered, but the listener is not invoked before
`subscribe` returns — the catch-up call `fn(state)` is absent from
that file. -/
def Cell.subscribeNoCatchup (c : Cell) (f : Nat) : Cell × List Event × Nat :=
  ({ c with handlers := c.handlers ++ [(c.nextId, f)], nextId := c.nextId + 1 },
   [], c.nextId)

/-- The unsubscribe closure `() => bus.removeEventListener('change',
handler)`: removes the one registration made by the matching
`subscribe` call; removing an absent handler is a no-op. -/
def Cell.unsubscribe (c : Cell) (hid : Nat) : Cell :=
  { c with handlers := c.handlers.filter (fun h => h.1 != hid) }

/-! ## The derivation node (`derived`) -/

/-- A derivation node over its source cells, in the live phase (after
construction has installed the source subscriptions and dropped the
`initializing` guard): the sources, the cached `value`, and the node's
own `listeners`, a JS `Set` keyed by function reference, in insertion
order.  The derivation function `fn` is abstracted by `compute`; its
result is kept primitive (`Int`), for which the default `Object.is`
equality is value equality. -/
structure DSys where
  sources : List Cell
  value : Int
  dlisteners : List Nat
deriving Repr, DecidableEq

/-- Construction: `value = fn(...deps.map(s => s.get()))` evaluated
once, synchronously.  The `initializing` flag suppresses the handler
body during the catch-up calls of the source subscriptions, so
construction recomputes nothing and notifies nobody. -/
def derivedInit (compute : List Rec → Int) (sources : List Cell) : DSys :=
  ⟨sources, compute (sources.map Cell.get), []⟩

/-- A write to source `i` propagated through the node's source
subscription: the source merges and dispatches; the node's handler
re-reads every source fresh, recomputes, and — only when the computed
`next` differs from the cached `value` under `isEqual` (default
`Object.is`) — replaces the cache and notifies the node's listeners in
insertion order.  Returns the new system, the source's own listener
invocations, the node's listener invocations, and whether the updater
threw (a thrown updater leaves everything unchanged and dispatches
nothing). -/
def DSys.write (compute : List Rec → Int) (sys : DSys) (i : Nat) (u : Upd) :
    DSys × List Event × List (Nat × Int) × Bool :=
  match sys.sources.get? i with
  | none => (sys, [], [], false)
  | some src =>
    match Cell.set src u with
    | (_, _, true) => (sys, [], [], true)
    | (src2, evs, false) =>
      let sources2 := sys.sources.set i src2
      let next := compute (sources2.map Cell.get)
      if next = sys.value then
        (⟨sources2, sys.value, sys.dlisteners⟩, evs, [], false)
      else
        (⟨sources2, next, sys.dlisteners⟩, evs,
         sys.dlisteners.map (fun l => (l, next)), false)

/-- `subscribe(fn)` on the node: `listeners.add(fn)` — a `Set` add, so
re-adding the same function reference leaves the set unchanged —
followed by the catch-up call `fn(value)`.  (The copy in
`packages/clavicula/index.js` omits the catch-up call but has the same
`Set` add/delete semantics.) -/
def DSys.subscribe (sys : DSys) (f : Nat) : DSys × List (Nat × Int) :=
  (⟨sys.sources, sys.value,
    if f ∈ sys.dlisteners then sys.dlisteners else sys.dlisteners ++ [f]⟩,
   [(f, sys.value)])

/-- The unsubscribe closure `() => listeners.delete(fn)`: removes the
function reference from the `Set`. -/
def DSys.unsubscribe (sys : DSys) (f : Nat) : DSys :=
  ⟨sys.sources, sys.value, sys.dlisteners.filter (fun l => l != f)⟩

/-! ## `withBatching` (extras package, current variant) -/

/-- State of a `withBatching(store)` wrapper: the underlying cell, the
accumulated `queued` partial, the `batching` flag, and the number of
flush callbacks handed to `queueMicrotask` and not yet run. -/
structure BatchCell where
  cell : Cell
  queued : Rec
  batching : Bool
  tasks : Nat
deriving Repr, DecidableEq

/-- `withBatching(store)`: fresh wrapper with `queued = {}`,
`batching = false`. -/
def withBatching (c : Cell) : BatchCell := ⟨c, [], false, 0⟩

/-- Batched `get()`: `({ ...store.get(), ...queued })` — the underlying
value with the pending queued changes shallow-merged over it. -/
def BatchCell.get (b : BatchCell) : Rec := shallowMerge b.cell.state b.queued

/-- Batched `subscribe` is the underlying store's `subscribe`
(`subscribe: store.subscribe`), catch-up call included. -/
def BatchCell.subscribe (b : BatchCell) (f : Nat) :
    BatchCell × List Event × Nat :=
  let r := Cell.subscribe b.cell f
  ({ b with cell := r.1 }, r.2.1, r.2.2)

/-- Batched `set(partial)`: resolve the update against the optimistic
current value `{ ...store.get(), ...queued }`, merge the result into
`queued`, and, if no flush is pending, set `batching` and schedule one
flush microtask.  A throwing updater propagates, leaving `queued` and
the schedule unchanged. -/
def BatchCell.set (b : BatchCell) (u : Upd) : BatchCell × Bool :=
  match resolveUpd u (shallowMerge b.cell.state b.queued) with
  | none => (b, true)
  | some up =>
    let q2 := shallowMerge b.queued up
    if b.batching then ({ b with queued := q2 }, false)
    else ({ b with queued := q2, batching := true, tasks := b.tasks + 1 }, false)

/-- One scheduled flush callback: `store.set(queued); queued = {};
batching = false;`. -/
def BatchCell.flushBody (b : BatchCell) : BatchCell × List Event :=
  let r := Cell.set b.cell (Upd.obj b.queued)
  ({ cell := r.1, queued := [], batching := false, tasks := b.tasks }, r.2.1)

/-- Run `n` queued microtasks in order. -/
def BatchCell.runTasksAux : Nat → BatchCell → BatchCell × List Event
  | 0, b => (b, [])
  | n + 1, b =>
    let r := b.flushBody
    let r2 := BatchCell.runTasksAux n r.1
    (r2.1, r.2 ++ r2.2)

/-- Drain the microtask queue at the end of the current synchronous
turn: run every scheduled flush callback in order. -/
def BatchCell.runTasks (b : BatchCell) : BatchCell × List Event :=
  BatchCell.runTasksAux b.tasks { b with tasks := 0 }

/-- A sequence of synchronous `set` calls within one turn; `none` when
one of the updaters throws (the exception aborts the turn). -/
def BatchCell.setMany (b : BatchCell) : List Upd → Option BatchCell
  | [] => some b
  | u :: us =>
    match b.set u with
    | (b2, false) => b2.setMany us
    | (_, true) => none

/-! ## `withReset` -/

/-- A `withReset(store)` wrapper: the underlying cell and the snapshot
`initial = { ...store.get() }` captured at wrap time. -/
structure ResetCell where
  cell : Cell
  initial : Rec
deriving Repr, DecidableEq

/-- `withReset(store)`: capture the wrap-time state (the spread copy
has the same entries in the same order). -/
def withReset (c : Cell) : ResetCell := ⟨c, c.state⟩

/-- `get` delegates to the underlying store. -/
def ResetCell.get (rc : ResetCell) : Rec := rc.cell.state

/-- `set` delegates to the underlying store. -/
def ResetCell.set (rc : ResetCell) (u : Upd) : ResetCell × List Event × Bool :=
  let r := rc.cell.set u
  ({ rc with cell := r.1 }, r.2.1, r.2.2)

/-- `reset: () => store.set(initial)` — a plain `set` call with the
captured snapshot, i.e. a shallow-merge write. -/
def ResetCell.reset (rc : ResetCell) : ResetCell × List Event :=
  let r := rc.cell.set (Upd.obj rc.initial)
  ({ rc with cell := r.1 }, r.2.1)

/-! ## `withHistory` -/

/-- A `withHistory(store, maxSize)` wrapper: the underlying cell, the
`past` and `future` snapshot stacks (oldest first; JS `push`/`pop` work
at the end, `shift` at the front), and the `skipNext` suppression
flag.  The tracking subscriber registered at wrap time has exactly one
observable effect — mutating `future`/`skipNext` on each underlying
dispatch — which the operations below apply inline at each point the
underlying store dispatches. -/
structure HistCell where
  cell : Cell
  past : List Rec
  future : List Rec
  skipNext : Bool
  maxSize : Nat
deriving Repr, DecidableEq

/-- `withHistory(store, maxSize)`: empty stacks.  The tracker's
catch-up call runs with `skipNext = false` and clears the already-empty
`future`, a no-op. -/
def withHistory (c : Cell) (maxSize : Nat) : HistCell :=
  ⟨c, [], [], false, maxSize⟩

/-- The tracking subscriber body: consume `skipNext` if set, otherwise
clear `future`. -/
def histTrack (h : HistCell) : HistCell :=
  if h.skipNext then { h with skipNext := false } else { h with future := [] }

/-- Wrapped `set`: push the pre-write state onto `past`, `shift` the
oldest entry off when the stack exceeds `maxSize`, clear `future`, then
delegate to the underlying `set` (whose dispatch runs the tracker).  A
throwing updater propagates after the history bookkeeping, with the
state unchanged and nothing dispatched. -/
def HistCell.set (h : HistCell) (u : Upd) : HistCell × List Event × Bool :=
  match Cell.set h.cell u with
  | (_, _, true) =>
    ({ h with
        past := if (h.past ++ [h.cell.state]).length > h.maxSize
          then (h.past ++ [h.cell.state]).tail
          else h.past ++ [h.cell.state],
        future := [] }, [], true)
  | (c2, evs, false) =>
    (histTrack { h with
        cell := c2,
        past := if (h.past ++ [h.cell.state]).length > h.maxSize
          then (h.past ++ [h.cell.state]).tail
          else h.past ++ [h.cell.state],
        future := [] }, evs, false)

/-- `undo()`: no-op when `past` is empty; otherwise push the current
state onto `future`, set the suppression flag, and write the popped
snapshot through the underlying `set` (a shallow-merge write whose
dispatch consumes the flag in the tracker). -/
def HistCell.undo (h : HistCell) : HistCell × List Event :=
  match h.past.getLast? with
  | none => (h, [])
  | some popped =>
    (histTrack { h with
        cell := (Cell.set h.cell (Upd.obj popped)).1,
        future := h.future ++ [h.cell.state],
        past := h.past.dropLast,
        skipNext := true },
     (Cell.set h.cell (Upd.obj popped)).2.1)

/-- `redo()`: symmetric to `undo`. -/
def HistCell.redo (h : HistCell) : HistCell × List Event :=
  match h.future.getLast? with
  | none => (h, [])
  | some popped =>
    (histTrack { h with
        cell := (Cell.set h.cell (Upd.obj popped)).1,
        past := h.past ++ [h.cell.state],
        future := h.future.dropLast,
        skipNext := true },
     (Cell.set h.cell (Upd.obj popped)).2.1)

/-- `canUndo: () => past.length > 0`. -/
def HistCell.canUndo (h : HistCell) : Bool := h.past.length > 0

/-- `canRedo: () => future.length > 0`. -/
def HistCell.canRedo (h : HistCell) : Bool := h.future.length > 0

/-- One wrapped-store operation, for stating invariants of the history
state machine. -/
inductive HOp where
  | hset (u : Upd)
  | undo
  | redo

/-- Apply one operation to the history wrapper, discarding the event
log. -/
def happly (h : HistCell) : HOp → HistCell
  | .hset u => (h.set u).1
  | .undo => h.undo.1
  | .redo => h.redo.1

/-- Apply a sequence of operations, left to right. -/
def applyOps (h : HistCell) (ops : List HOp) : HistCell :=
  ops.foldl happly h

/-! ## `withFreeze` (environment-gated variant, `src/unnamed/part_005`) -/

/-- The environment read by `withFreeze`: whether the global `process`
exists, and the value of `process.env.NODE_ENV` (`none` when the
variable is unset). -/
structure FreezeEnv where
  processDefined : Bool
  nodeEnv : Option String
deriving Repr, DecidableEq

/-- The gate `typeof process === 'undefined' ||
process.env.NODE_ENV === 'production'`. -/
def freezeDisabled (env : FreezeEnv) : Bool :=
  !env.processDefined || env.nodeEnv == some "production"

/-- A store wrapped by the development branch of `withFreeze`: the
underlying cell plus the log of records passed to the recursive
`freeze` (wrap-time state first, then each post-`set` state). -/
structure FreezeCell where
  cell : Cell
  frozen : List Rec
deriving Repr, DecidableEq

/-- The environment-gated `withFreeze(store)`: when `process` is
undefined or `NODE_ENV` is `production`, return the input store itself
(same reference, nothing frozen); otherwise `freeze(store.get())` and
return a wrapper that re-freezes after every `set`. -/
def withFreeze (env : FreezeEnv) (c : Cell) : Cell ⊕ FreezeCell :=
  if freezeDisabled env then Sum.inl c
  else Sum.inr ⟨c, [c.state]⟩

/-- Wrapper `set`: `store.set(partial); freeze(store.get())`.  A
throwing updater propagates before the freeze. -/
def FreezeCell.set (fc : FreezeCell) (u : Upd) : FreezeCell × List Event × Bool :=
  match Cell.set fc.cell u with
  | (_, _, true) => (fc, [], true)
  | (c2, evs, false) => (⟨c2, fc.frozen ++ [c2.state]⟩, evs, false)

/-! ## `withPersist` (extras package) -/

/-- The external key-value backend (`localStorage` content). -/
abbrev Storage := List (String × String)

/-- `localStorage.getItem(key)`. -/
def storageGet (st : Storage) (k : String) : Option String :=
  match st with
  | [] => none
  | e :: st2 => if e.1 = k then some e.2 else storageGet st2 k

/-- `localStorage.setItem(key, value)`. -/
def storageSet (st : Storage) (k v : String) : Storage :=
  match st with
  | [] => [(k, v)]
  | e :: st2 => if e.1 = k then (k, v) :: st2 else e :: storageSet st2 k v

/-- The function reference of the persisting listener
`state => localStorage.setItem(key, JSON.stringify(state))`. -/
def persistRef : Nat := 999

/-- `withPersist(store, key)` from the extras package.  `available`
models whether a `localStorage` backend exists in the current
environment; `parse` and `serialize` abstract `JSON.parse` and
`JSON.stringify` (a `parse` failure is the caught `JSON.parse`
exception, downgraded to a `console.warn` with the in-memory state left
untouched).  The result is `none` only if an exception escapes the
call.  Guard first: with no backend, return the store unchanged.
Otherwise: load the persisted record and `set` it if present and
parseable, then `store.subscribe` the persisting listener — whose
immediate catch-up call writes the then-current state back to the
backend. -/
def withPersist (parse : String → Option Rec) (serialize : Rec → String)
    (available : Bool) (st : Storage) (c : Cell) (key : String) :
    Option (Cell × Storage) :=
  if !available then some (c, st)
  else
    let c1 :=
      match storageGet st key with
      | none => c
      | some s =>
        match parse s with
        | none => c
        | some r => (Cell.set c (Upd.obj r)).1
    let r := Cell.subscribe c1 persistRef
    some (r.1, storageSet st key (serialize c1.state))

/-- `withPersist` as shipped in `packages/clavicula/index.js` — the
pre-extras copy, not declared in that package's type declarations: it
has no environment guard, so its first statement
`localStorage.getItem(key)` throws a `ReferenceError` when no backend
exists. -/
def withPersistLegacy (parse : String → Option Rec) (serialize : Rec → String)
    (available : Bool) (st : Storage) (c : Cell) (key : String) :
    Option (Cell × Storage) :=
  if !available then none
  else
    let c1 :=
      match storageGet st key with
      | none => c
      | some s =>
        match parse s with
        | none => c
        | some r => (Cell.set c (Upd.obj r)).1
    let r := Cell.subscribe c1 persistRef
    some (r.1, storageSet st key (serialize c1.state))

/-- A derivation function used by concrete instances below: project the
field `k` of the first source (0 when absent). -/
def computeHead (k : String) : List Rec → Int :=
  fun rs => (recLookup (rs.headD []) k).getD 0

/-! ## Claim theorems -/

/-- C1: the spec requires `subscribe(listener)` to invoke the listener
exactly once, synchronously, with the then-current value before
`subscribe` returns, for stores and derivation nodes alike and
independent of writes.  The current core (`src/unnamed/part_002`) does
exactly that, but the copy shipped at `packages/clavicula/index.js`
performs no invocation at all before returning — contradicting the
colocated test `calls subscriber immediately with current state`
(which expects one call with `{x: 1}`) and the documented
Svelte-compatible subscribe contract.  On the store `createStore({x:
1})` and listener `5`, the part_002 subscribe performs exactly the one
catch-up invocation, while the index.js subscribe performs none. -/
theorem subscribe_catchup_divergence :
    (Cell.subscribe (createStore [("x", 1)]) 5).2.1 = [(5, [("x", 1)])] ∧
    (Cell.subscribeNoCatchup (createStore [("x", 1)]) 5).2.1 = [] :=
  ⟨rfl, rfl⟩

/-- C4: when no `localStorage` backend exists in the current
environment (`available = false`), the extras `withPersist(store,
key)` degrades to a pass-through no-op: it returns the very store it
was given and the backend untouched, and no exception escapes (the
result is `some`, never the thrown `none`). -/
theorem withPersist_unavailable_noop (parse : String → Option Rec)
    (serialize : Rec → String) (st : Storage) (c : Cell) (key : String) :
    withPersist parse serialize false st c key = some (c, st) := rfl

/-- C5: if the updater function passed to `set` throws, the exception
propagates synchronously to the caller (the thrown flag is reported),
the cell — state and subscribers — is exactly as before, and no
listener is invoked: atomic failure. -/
theorem set_throwing_updater_atomic (c : Cell) (f : Rec → Option Rec)
    (h : f c.state = none) :
    Cell.set c (Upd.fn f) = (c, [], true) := by
  simp [Cell.set, resolveUpd, h]

/-- Witness for C5 at the store `createStore({x: 1})` and the updater
that always throws. -/
theorem set_throwing_updater_atomic_witness :
    Cell.set (createStore [("x", 1)]) (Upd.fn (fun _ => none)) =
      (createStore [("x", 1)], [], true) :=
  set_throwing_updater_atomic (createStore [("x", 1)]) (fun _ => none) rfl

/-- C10: in the environment-gated `withFreeze` of
`src/unnamed/part_005`, whenever the global `process` is undefined or
`process.env.NODE_ENV` equals `production`, the wrapper returns its
input store unchanged and nothing is ever frozen; otherwise it
deep-freezes the current state at wrap time, and the wrapper's `set`
deep-freezes the post-write state again after every successful
underlying write. -/
theorem withFreeze_env_gate (env : FreezeEnv) (c : Cell) :
    ((env.processDefined = false ∨ env.nodeEnv = some "production") →
      withFreeze env c = Sum.inl c) ∧
    (env.processDefined = true → env.nodeEnv ≠ some "production" →
      withFreeze env c = Sum.inr ⟨c, [c.state]⟩) ∧
    (∀ (fc : FreezeCell) (u : Upd), (fc.set u).2.2 = false →
      ((fc.set u).1).frozen = fc.frozen ++ [((fc.set u).1).cell.state]) := by
  refine ⟨?_, ?_, ?_⟩
  · intro h
    have hd : freezeDisabled env = true := by
      rcases h with h | h
      · simp [freezeDisabled, h]
      · simp [freezeDisabled, h]
    simp [withFreeze, hd]
  · intro h1 h2
    have hd : freezeDisabled env = false := by
      simp [freezeDisabled, h1]
      exact h2
    simp [withFreeze, hd]
  · intro fc u
    unfold FreezeCell.set
    rcases hset : Cell.set fc.cell u with ⟨c2, evs, thr⟩
    cases thr
    · intro _; rfl
    · intro hfalse; simp at hfalse

/-- Witness for C10 in a browser-like environment (no `process`): the
wrapper returns the input store itself. -/
theorem withFreeze_env_gate_witness :
    withFreeze ⟨false, none⟩ (createStore [("a", 1)]) =
      Sum.inl (createStore [("a", 1)]) :=
  (withFreeze_env_gate ⟨false, none⟩ (createStore [("a", 1)])).1 (Or.inl rfl)

/-- C3 counterexample: `reset()` is `store.set(initial)`, a
shallow-merge write, not a full replace.  Wrap `createStore({a: 0})`,
then `set({b: 1})`, then `reset()`: the key `b` added after wrapping
survives, so `get()` returns `{a: 0, b: 1}`, not the captured snapshot
`{a: 0}` — the claim that keys added by later writes are gone is
false on the code. -/
theorem reset_counterexample :
    (((withReset (createStore [("a", 0)])).set
        (Upd.obj [("b", 1)])).1.reset).1.get = [("a", 0), ("b", 1)] ∧
    (withReset (createStore [("a", 0)])).initial = [("a", 0)] ∧
    (((withReset (createStore [("a", 0)])).set
        (Upd.obj [("b", 1)])).1.reset).1.get ≠ [("a", 0)] := by
  refine ⟨by decide, rfl, by decide⟩

/-- C3 amended: `reset()` performs a shallow-merge write of the
snapshot captured at wrap time, not a full replace: afterwards every
key of the captured snapshot is back at its captured value, while keys
added by writes performed after wrapping keep their current values;
the write dispatches one normal notification to every subscriber with
the merged state. -/
theorem reset_merge_write (rc : ResetCell)
    (hin : (recKeys rc.initial).Nodup) :
    (rc.reset.1.cell.state = shallowMerge rc.cell.state rc.initial ∧
     rc.reset.1.initial = rc.initial ∧
     rc.reset.2 = rc.cell.handlers.map
       (fun h => (h.2, shallowMerge rc.cell.state rc.initial))) ∧
    (∀ k, k ∈ recKeys rc.initial →
      recLookup rc.reset.1.cell.state k = recLookup rc.initial k) ∧
    (∀ k, k ∉ recKeys rc.initial →
      recLookup rc.reset.1.cell.state k = recLookup rc.cell.state k) := by
  refine ⟨⟨rfl, rfl, rfl⟩, ?_, ?_⟩
  · intro k hk
    show recLookup (shallowMerge rc.cell.state rc.initial) k = _
    exact recLookup_shallowMerge_of_mem _ hin hk
  · intro k hk
    show recLookup (shallowMerge rc.cell.state rc.initial) k = _
    exact recLookup_shallowMerge_of_not_mem _ hk

/-- C9 counterexample: on a derivation node, `subscribe` is
`listeners.add(fn)` on a JS `Set`, so registering the same function
reference twice collapses to a single registration.  Subscribing
listener `7` twice to a node over `createStore({x: 1})` with
derivation `s => s.x` leaves one entry in the listener set, and a
value-changing write `{x: 2}` invokes the listener once — not twice as
the claim states. -/
theorem duplicate_listener_counterexample :
    (((derivedInit (computeHead "x") [createStore [("x", 1)]]).subscribe
        7).1.subscribe 7).1.dlisteners = [7] ∧
    (DSys.write (computeHead "x")
        (((derivedInit (computeHead "x") [createStore [("x", 1)]]).subscribe
          7).1.subscribe 7).1 0 (Upd.obj [("x", 2)])).2.2.1 = [(7, 2)] ∧
    ¬ (DSys.write (computeHead "x")
        (((derivedInit (computeHead "x") [createStore [("x", 1)]]).subscribe
          7).1.subscribe 7).1 0 (Upd.obj [("x", 2)])).2.2.1.length = 2 := by
  refine ⟨by decide, by decide, by decide⟩

/-- C9 amended: on a cell, each `subscribe` wraps the listener in a
fresh handler, so registering the same function reference twice
creates two distinct registrations — a notification then invokes the
reference twice more than before, and each returned unsubscribe
removes only its own handler.  On a derivation node, whose listener
collection is a `Set` keyed by function reference, a second
registration of the same reference is a no-op (the node is unchanged)
and a single delete removes the reference entirely. -/
theorem duplicate_listener_semantics (c : Cell) (f : Nat) (p : Rec)
    (sys : DSys) :
    (((c.subscribe f).1.subscribe f).2.2 ≠ (c.subscribe f).2.2 ∧
     ((c.subscribe f).1.subscribe f).1.handlers =
       c.handlers ++ [((c.subscribe f).2.2, f),
                      (((c.subscribe f).1.subscribe f).2.2, f)] ∧
     ((((c.subscribe f).1.subscribe f).1.set (Upd.obj p)).2.1.count
         (f, shallowMerge c.state p)) =
       ((c.set (Upd.obj p)).2.1.count (f, shallowMerge c.state p)) + 2 ∧
     (((c.subscribe f).1.subscribe f).1.unsubscribe
         (c.subscribe f).2.2).handlers =
       c.handlers.filter (fun h => h.1 != (c.subscribe f).2.2) ++
         [(((c.subscribe f).1.subscribe f).2.2, f)]) ∧
    (((sys.subscribe f).1.subscribe f).1 = (sys.subscribe f).1 ∧
     f ∉ ((sys.subscribe f).1.unsubscribe f).dlisteners) := by
  refine ⟨⟨?_, ?_, ?_, ?_⟩, ?_, ?_⟩
  · simp [Cell.subscribe]
  · simp [Cell.subscribe]
  · simp [Cell.subscribe, Cell.set, resolveUpd, List.count_append,
      List.count_cons]
  · simp [Cell.subscribe, Cell.unsubscribe, List.filter_append]
  · by_cases hf : f ∈ sys.dlisteners
    · simp [DSys.subscribe, hf]
    · simp [DSys.subscribe, hf]
  · by_cases hf : f ∈ sys.dlisteners
    · simp [DSys.subscribe, DSys.unsubscribe, hf, List.mem_filter]
    · simp [DSys.subscribe, DSys.unsubscribe, hf, List.mem_filter]

/-- C7: the equality gate of `derived`: a successful write to source
`i` recomputes from the fresh values of every source; when the result
equals the cached value under the default `Object.is` equality, the
cached value stays and the node's subscribers receive nothing; the
node's subscribers are notified exactly when the freshly computed
value differs from the cached one. -/
theorem derived_equality_gate (compute : List Rec → Int) (sys : DSys)
    (i : Nat) (u : Upd) (src : Cell) (p : Rec)
    (hsrc : sys.sources.get? i = some src)
    (hres : resolveUpd u src.state = some p) :
    (compute ((sys.sources.set i
        { src with state := shallowMerge src.state p }).map Cell.get) =
          sys.value →
      DSys.write compute sys i u =
        (⟨sys.sources.set i { src with state := shallowMerge src.state p },
          sys.value, sys.dlisteners⟩,
         src.handlers.map (fun h => (h.2, shallowMerge src.state p)),
         [], false)) ∧
    (compute ((sys.sources.set i
        { src with state := shallowMerge src.state p }).map Cell.get) ≠
          sys.value →
      DSys.write compute sys i u =
        (⟨sys.sources.set i { src with state := shallowMerge src.state p },
          compute ((sys.sources.set i
            { src with state := shallowMerge src.state p }).map Cell.get),
          sys.dlisteners⟩,
         src.handlers.map (fun h => (h.2, shallowMerge src.state p)),
         sys.dlisteners.map (fun l =>
           (l, compute ((sys.sources.set i
             { src with state := shallowMerge src.state p }).map Cell.get))),
         false)) := by
  constructor
  · intro heq
    simp only [DSys.write, hsrc, Cell.set, hres]
    rw [if_pos heq]
  · intro hne
    simp only [DSys.write, hsrc, Cell.set, hres]
    rw [if_neg hne]

/-- Witness for C7: a node over `createStore({x: 1, y: 2})` deriving
`s => s.x` has cached value `1`; the write `{y: 5}` changes the source
but not the derived output, so the node delivers no invocation and
keeps its cached value. -/
theorem derived_equality_gate_witness :
    (DSys.write (computeHead "x")
        (derivedInit (computeHead "x") [createStore [("x", 1), ("y", 2)]])
        0 (Upd.obj [("y", 5)])).2.2.1 = [] ∧
    (DSys.write (computeHead "x")
        (derivedInit (computeHead "x") [createStore [("x", 1), ("y", 2)]])
        0 (Upd.obj [("y", 5)])).1.value = 1 := by
  have h := (derived_equality_gate (computeHead "x")
    (derivedInit (computeHead "x") [createStore [("x", 1), ("y", 2)]])
    0 (Upd.obj [("y", 5)]) (createStore [("x", 1), ("y", 2)]) [("y", 5)]
    rfl rfl).1 (by decide)
  rw [h]
  exact ⟨rfl, by decide⟩

/-- Witness for the amended C3 on the scenario of the counterexample:
after `set({b: 1})` and `reset()`, key `a` is restored to `0` and the
added key `b` keeps `1`. -/
theorem reset_merge_write_witness :
    recLookup (((withReset (createStore [("a", 0)])).set
      (Upd.obj [("b", 1)])).1.reset.1.cell.state) "a" = some 0 ∧
    recLookup (((withReset (createStore [("a", 0)])).set
      (Upd.obj [("b", 1)])).1.reset.1.cell.state) "b" = some 1 := by
  constructor
  · exact ((reset_merge_write ((withReset (createStore [("a", 0)])).set
      (Upd.obj [("b", 1)])).1 (by decide)).2.1 "a" (by decide)).trans (by decide)
  · exact ((reset_merge_write ((withReset (createStore [("a", 0)])).set
      (Upd.obj [("b", 1)])).1 (by decide)).2.2 "b" (by decide)).trans (by decide)

/-- Unfolding equation for a successful batched `set`. -/
theorem batchSet_eq (b : BatchCell) (u : Upd) (up : Rec)
    (h : resolveUpd u (shallowMerge b.cell.state b.queued) = some up) :
    BatchCell.set b u =
      (if b.batching then ⟨b.cell, shallowMerge b.queued up, b.batching, b.tasks⟩
       else ⟨b.cell, shallowMerge b.queued up, true, b.tasks + 1⟩, false) := by
  unfold BatchCell.set
  rw [h]
  by_cases hb : b.batching
  · simp [hb]
  · simp [hb]

/-- A successful batched `set` leaves the underlying cell untouched and
leaves the `batching` flag set. -/
theorem batchSet_success (b : BatchCell) (u : Upd) (b1 : BatchCell)
    (h : BatchCell.set b u = (b1, false)) :
    b1.cell = b.cell ∧ b1.batching = true := by
  rcases hres : resolveUpd u (shallowMerge b.cell.state b.queued) with _ | p
  · unfold BatchCell.set at h
    rw [hres] at h
    simp at h
  · rw [batchSet_eq b u p hres] at h
    by_cases hb : b.batching
    · rw [if_pos hb] at h
      injection h with h1 _
      subst h1
      exact ⟨rfl, hb⟩
    · rw [if_neg hb] at h
      injection h with h1 _
      subst h1
      exact ⟨rfl, rfl⟩

/-- Within one synchronous turn, a sequence of batched `set` calls
never touches the underlying cell. -/
theorem setMany_cell_fixed : ∀ (us : List Upd) (b b2 : BatchCell),
    BatchCell.setMany b us = some b2 → b2.cell = b.cell := by
  intro us
  induction us with
  | nil =>
    intro b b2 h
    cases h
    rfl
  | cons u us ih =>
    intro b b2 h
    unfold BatchCell.setMany at h
    rcases hset : BatchCell.set b u with ⟨b1, thr⟩
    rw [hset] at h
    cases thr
    · exact (ih b1 b2 h).trans (batchSet_success b u b1 hset).1
    · simp at h

/-- Within one synchronous turn, once a batched `set` has run, the
`batching` flag stays set until the flush. -/
theorem setMany_batching : ∀ (us : List Upd) (b b2 : BatchCell),
    BatchCell.setMany b us = some b2 → b.batching = true →
    b2.batching = true := by
  intro us
  induction us with
  | nil =>
    intro b b2 h hb
    cases h
    exact hb
  | cons u us ih =>
    intro b b2 h _
    unfold BatchCell.setMany at h
    rcases hset : BatchCell.set b u with ⟨b1, thr⟩
    rw [hset] at h
    cases thr
    · exact ih b1 b2 h (batchSet_success b u b1 hset).2
    · simp at h

/-- C2: after one or more successful `set` calls on a batched store
within the current synchronous turn and before the deferred flush, the
underlying store is still exactly as it was, a flush is pending, and
`get()` returns the underlying value with all pending queued changes
shallow-merged over it — the caller observes the optimistic state. -/
theorem batching_get_optimistic (c : Cell) (us : List Upd) (b2 : BatchCell)
    (hne : us ≠ [])
    (h : BatchCell.setMany (withBatching c) us = some b2) :
    b2.cell = c ∧ b2.batching = true ∧
    BatchCell.get b2 = shallowMerge c.state b2.queued := by
  have hcell : b2.cell = c := setMany_cell_fixed us (withBatching c) b2 h
  refine ⟨hcell, ?_, ?_⟩
  · rcases us with _ | ⟨u, us⟩
    · exact absurd rfl hne
    · unfold BatchCell.setMany at h
      rcases hset : BatchCell.set (withBatching c) u with ⟨b1, thr⟩
      rw [hset] at h
      cases thr
      · exact setMany_batching us b1 b2 h (batchSet_success _ u b1 hset).2
      · simp at h
  · unfold BatchCell.get
    rw [hcell]

/-- Witness for C2: one `set({x: 5})` on a batched `createStore({x: 0,
y: 0})` queues the change; `get()` already reports `{x: 5, y: 0}`
while the underlying store still holds `{x: 0, y: 0}`. -/
theorem batching_get_optimistic_witness :
    BatchCell.get ⟨createStore [("x", 0), ("y", 0)], [("x", 5)], true, 1⟩ =
      [("x", 5), ("y", 0)] := by
  have h := batching_get_optimistic (createStore [("x", 0), ("y", 0)])
    [Upd.obj [("x", 5)]]
    ⟨createStore [("x", 0), ("y", 0)], [("x", 5)], true, 1⟩
    (by simp) (by decide)
  rw [h.2.2]
  decide

/-- C6: three synchronous `set` calls on a batched store within one
turn schedule exactly one flush microtask; draining the microtask
queue performs exactly one underlying `set`, whose single dispatch
invokes each registered subscriber exactly once (beyond the catch-up
each received when subscribing) with the final value, and that value
is the cumulative shallow merge of the three updates applied in order,
each functional update having been resolved against the accumulated
optimistic state. -/
theorem batching_coalesces (c : Cell) (u1 u2 u3 : Upd) (p1 p2 p3 : Rec)
    (h1n : (recKeys p1).Nodup)
    (h1 : resolveUpd u1 c.state = some p1)
    (h2 : resolveUpd u2 (shallowMerge c.state p1) = some p2)
    (h3 : resolveUpd u3 (shallowMerge (shallowMerge c.state p1) p2) = some p3) :
    BatchCell.setMany (withBatching c) [u1, u2, u3] =
      some ⟨c, shallowMerge (shallowMerge p1 p2) p3, true, 1⟩ ∧
    BatchCell.runTasks ⟨c, shallowMerge (shallowMerge p1 p2) p3, true, 1⟩ =
      (⟨⟨shallowMerge (shallowMerge (shallowMerge c.state p1) p2) p3,
         c.handlers, c.nextId⟩, [], false, 0⟩,
       c.handlers.map (fun h =>
         (h.2, shallowMerge (shallowMerge (shallowMerge c.state p1) p2) p3))) := by
  have hq1 : shallowMerge ([] : Rec) p1 = p1 := shallowMerge_nil_left h1n
  have hassoc1 : shallowMerge (shallowMerge c.state p1) p2 =
      shallowMerge c.state (shallowMerge p1 p2) :=
    shallowMerge_assoc c.state p2 h1n
  have hassoc2 : shallowMerge (shallowMerge c.state (shallowMerge p1 p2)) p3 =
      shallowMerge c.state (shallowMerge (shallowMerge p1 p2) p3) :=
    shallowMerge_assoc c.state p3 (nodup_recKeys_shallowMerge p2 h1n)
  have e1 : BatchCell.set (withBatching c) u1 = (⟨c, p1, true, 1⟩, false) := by
    have := batchSet_eq (withBatching c) u1 p1
      (by rw [show shallowMerge (withBatching c).cell.state
          (withBatching c).queued = c.state from rfl]; exact h1)
    rw [this]
    simp [withBatching, hq1]
  have e2 : BatchCell.set ⟨c, p1, true, 1⟩ u2 =
      (⟨c, shallowMerge p1 p2, true, 1⟩, false) := by
    have := batchSet_eq ⟨c, p1, true, 1⟩ u2 p2 h2
    rw [this]
    simp
  have e3 : BatchCell.set ⟨c, shallowMerge p1 p2, true, 1⟩ u3 =
      (⟨c, shallowMerge (shallowMerge p1 p2) p3, true, 1⟩, false) := by
    have := batchSet_eq ⟨c, shallowMerge p1 p2, true, 1⟩ u3 p3
      (by show resolveUpd u3 (shallowMerge c.state (shallowMerge p1 p2)) = some p3
          rw [← hassoc1]; exact h3)
    rw [this]
    simp
  constructor
  · simp only [BatchCell.setMany, e1, e2, e3]
  · simp only [BatchCell.runTasks, BatchCell.runTasksAux, BatchCell.flushBody,
      Cell.set, resolveUpd]
    rw [hassoc1, hassoc2]
    simp

/-- Witness for C6: on `createStore({x: 0, y: 0})` with one subscriber
`7`, the three updates `{x: 1}`, `s => ({y: s.x + 1})`, `{x: 10}`
coalesce into the single queued record `{x: 10, y: 2}` with one
scheduled flush, and draining the microtask queue delivers exactly one
invocation `(7, {x: 10, y: 2})`. -/
theorem batching_coalesces_witness :
    BatchCell.setMany
        (withBatching (Cell.subscribe (createStore [("x", 0), ("y", 0)]) 7).1)
        [Upd.obj [("x", 1)],
         Upd.fn (fun s => some [("y", (recLookup s "x").getD 0 + 1)]),
         Upd.obj [("x", 10)]] =
      some ⟨(Cell.subscribe (createStore [("x", 0), ("y", 0)]) 7).1,
        shallowMerge (shallowMerge [("x", 1)] [("y", 2)]) [("x", 10)],
        true, 1⟩ ∧
    BatchCell.runTasks
        ⟨(Cell.subscribe (createStore [("x", 0), ("y", 0)]) 7).1,
         shallowMerge (shallowMerge [("x", 1)] [("y", 2)]) [("x", 10)],
         true, 1⟩ =
      (⟨⟨[("x", 10), ("y", 2)], [(0, 7)], 1⟩, [], false, 0⟩,
       [(7, [("x", 10), ("y", 2)])]) := by
  have h := batching_coalesces
    (Cell.subscribe (createStore [("x", 0), ("y", 0)]) 7).1
    (Upd.obj [("x", 1)])
    (Upd.fn (fun s => some [("y", (recLookup s "x").getD 0 + 1)]))
    (Upd.obj [("x", 10)])
    [("x", 1)] [("y", 2)] [("x", 10)]
    (by decide) rfl (by decide) rfl
  exact ⟨h.1, h.2.trans (by decide)⟩

/-- Components of the history wrapper after a `set`: the pre-write
state is pushed (with the oldest entry shifted off on overflow), the
`future` stack is cleared, and the capacity is untouched — whether or
not the updater throws. -/
theorem hset_components (h : HistCell) (u : Upd) :
    ((h.set u).1).past = (if (h.past ++ [h.cell.state]).length > h.maxSize
      then (h.past ++ [h.cell.state]).tail
      else h.past ++ [h.cell.state]) ∧
    ((h.set u).1).future = [] ∧
    ((h.set u).1).maxSize = h.maxSize := by
  unfold HistCell.set
  rcases hc : Cell.set h.cell u with ⟨c2, evs, thr⟩
  cases thr
  · unfold histTrack
    by_cases hs : h.skipNext
    · simp [hs]
    · simp [hs]
  · exact ⟨rfl, rfl, rfl⟩

/-- The capacity is an invariant of every history operation. -/
theorem happly_maxSize (h : HistCell) (op : HOp) :
    (happly h op).maxSize = h.maxSize := by
  cases op with
  | hset u => exact (hset_components h u).2.2
  | undo =>
    show (h.undo.1).maxSize = h.maxSize
    unfold HistCell.undo
    rcases hp : h.past.getLast? with _ | popped
    · rfl
    · unfold histTrack
      simp
  | redo =>
    show (h.redo.1).maxSize = h.maxSize
    unfold HistCell.redo
    rcases hp : h.future.getLast? with _ | popped
    · rfl
    · unfold histTrack
      simp

/-- The combined size of the two stacks never exceeds the capacity:
the bound is preserved by `set`, `undo` and `redo`. -/
theorem happly_bound (h : HistCell) (op : HOp)
    (hb : h.past.length + h.future.length ≤ h.maxSize) :
    (happly h op).past.length + (happly h op).future.length ≤ h.maxSize := by
  cases op with
  | hset u =>
    have hc := hset_components h u
    show ((h.set u).1).past.length + ((h.set u).1).future.length ≤ h.maxSize
    rw [hc.1, hc.2.1]
    by_cases hlen : (h.past ++ [h.cell.state]).length > h.maxSize
    · rw [if_pos hlen]
      simp only [List.length_tail, List.length_append, List.length_cons,
        List.length_nil] at *
      omega
    · rw [if_neg hlen]
      simp only [List.length_append, List.length_cons, List.length_nil] at *
      omega
  | undo =>
    show (h.undo.1).past.length + (h.undo.1).future.length ≤ h.maxSize
    unfold HistCell.undo
    rcases hp : h.past.getLast? with _ | popped
    · simpa using hb
    · have hne : h.past ≠ [] := by
        intro hnil
        rw [hnil] at hp
        simp at hp
      have hpos : 0 < h.past.length := List.length_pos.mpr hne
      unfold histTrack
      simp only [if_pos]
      simp only [List.length_dropLast, List.length_append, List.length_cons,
        List.length_nil]
      omega
  | redo =>
    show (h.redo.1).past.length + (h.redo.1).future.length ≤ h.maxSize
    unfold HistCell.redo
    rcases hp : h.future.getLast? with _ | popped
    · simpa using hb
    · have hne : h.future ≠ [] := by
        intro hnil
        rw [hnil] at hp
        simp at hp
      have hpos : 0 < h.future.length := List.length_pos.mpr hne
      unfold histTrack
      simp only [if_pos]
      simp only [List.length_dropLast, List.length_append, List.length_cons,
        List.length_nil]
      omega

/-- On a full `past` stack, a `set` evicts the oldest snapshot. -/
theorem hset_evicts (h : HistCell) (u : Upd) (hpos : 0 < h.maxSize)
    (hfull : h.past.length = h.maxSize) :
    ((h.set u).1).past = h.past.tail ++ [h.cell.state] := by
  rw [(hset_components h u).1,
    if_pos (by simp only [List.length_append, List.length_cons,
      List.length_nil]; omega)]
  rcases hp : h.past with _ | ⟨a, t⟩
  · rw [hp] at hfull
    simp at hfull
    omega
  · simp

/-- C8: wrapping `createStore({a: 0})` with `maxSize = 3`, four
sequential writes `{a: 1}` … `{a: 4}` followed by three `undo()` calls
leave `canUndo() === false` and `get()` equal to `{a: 1}` — the state
after the first write, the oldest retained snapshot — and not the
pre-first-write `{a: 0}`, whose snapshot was evicted when capacity was
exceeded.  In general the stacks start empty at wrap time, the
capacity is an invariant of every operation, the combined stack size
never exceeds the capacity (so the `past` stack holds at most
`maxSize` entries), and a `set` on a full `past` stack evicts the
oldest snapshot. -/
theorem history_bounds :
    ((applyOps (withHistory (createStore [("a", 0)]) 3)
        [HOp.hset (Upd.obj [("a", 1)]), HOp.hset (Upd.obj [("a", 2)]),
         HOp.hset (Upd.obj [("a", 3)]), HOp.hset (Upd.obj [("a", 4)]),
         HOp.undo, HOp.undo, HOp.undo]).canUndo = false ∧
     (applyOps (withHistory (createStore [("a", 0)]) 3)
        [HOp.hset (Upd.obj [("a", 1)]), HOp.hset (Upd.obj [("a", 2)]),
         HOp.hset (Upd.obj [("a", 3)]), HOp.hset (Upd.obj [("a", 4)]),
         HOp.undo, HOp.undo, HOp.undo]).cell.state = [("a", 1)] ∧
     (applyOps (withHistory (createStore [("a", 0)]) 3)
        [HOp.hset (Upd.obj [("a", 1)]), HOp.hset (Upd.obj [("a", 2)]),
         HOp.hset (Upd.obj [("a", 3)]), HOp.hset (Upd.obj [("a", 4)]),
         HOp.undo, HOp.undo, HOp.undo]).cell.state ≠ [("a", 0)]) ∧
    (∀ (c : Cell) (n : Nat),
      (withHistory c n).past.length + (withHistory c n).future.length ≤ n) ∧
    (∀ (h : HistCell) (op : HOp), (happly h op).maxSize = h.maxSize) ∧
    (∀ (h : HistCell) (op : HOp),
      h.past.length + h.future.length ≤ h.maxSize →
      (happly h op).past.length + (happly h op).future.length ≤ h.maxSize) ∧
    (∀ (h : HistCell) (u : Upd), 0 < h.maxSize → h.past.length = h.maxSize →
      ((h.set u).1).past = h.past.tail ++ [h.cell.state]) := by
  refine ⟨⟨by decide, by decide, by decide⟩, ?_, happly_maxSize,
    happly_bound, hset_evicts⟩
  intro c n
  simp [withHistory]

/-- Witness for C8: the stack bound applied to a concrete wrapper with
one `past` entry and capacity `3` under `undo`, and the eviction
equation applied to a full wrapper taking a fourth write. -/
theorem history_bounds_witness :
    ((happly ⟨createStore [("a", 0)], [[("a", 5)]], [], false, 3⟩
        HOp.undo).past.length +
      (happly ⟨createStore [("a", 0)], [[("a", 5)]], [], false, 3⟩
        HOp.undo).future.length ≤ 3) ∧
    ((HistCell.set ⟨createStore [("a", 0)],
        [[("a", 1)], [("a", 2)], [("a", 3)]], [], false, 3⟩
        (Upd.obj [("a", 4)])).1).past =
      [[("a", 2)], [("a", 3)], [("a", 0)]] := by
  constructor
  · exact history_bounds.2.2.2.1
      ⟨createStore [("a", 0)], [[("a", 5)]], [], false, 3⟩ HOp.undo (by decide)
  · exact (history_bounds.2.2.2.2
      ⟨createStore [("a", 0)], [[("a", 1)], [("a", 2)], [("a", 3)]], [],
        false, 3⟩
      (Upd.obj [("a", 4)]) (by decide) (by decide)).trans (by decide)

end Clavicula

